import Mathlib

/-!
Shallow embedding of the retrieval / answer-synthesis engine of the
Thinker-RAG-RASA repository (`actions/rag_pipeline.py`), together with a
model of its persistence layer.  Python strings are modelled as `List Char`,
similarity scores and vector entries as `ℤ` (an ordered ring suffices: the
claims under study concern ordering, filtering
and control flow, never floating-point rounding), and the external
embedding / generation capabilities as explicit function parameters.
-/

/-- Python strings are modelled as lists of characters. -/
abbrev PyStr := List Char

/-- Coerce a Lean string literal into the python-string model. -/
def pys (s : String) : PyStr := s.data

/-- The whitespace test used by python `str.strip` / `str.split` (ASCII range,
which is all the repository's data uses). -/
def pyIsSpace (c : Char) : Bool :=
  c = ' ' ∨ c = '\t' ∨ c = '\n' ∨ c = '\r' ∨ c = '\x0b' ∨ c = '\x0c'

/-- Python `s.strip()`: drop whitespace from both ends. -/
def pyStrip (s : PyStr) : PyStr :=
  ((s.dropWhile pyIsSpace).reverse.dropWhile pyIsSpace).reverse

/-- Worker for `pyWords`; the fuel argument is an upper bound on the number of
words and only guarantees termination. -/
def pyWordsAux : Nat → PyStr → List PyStr
  | 0, _ => []
  | fuel + 1, s =>
    match s.dropWhile pyIsSpace with
    | [] => []
    | c :: rest =>
      (c :: rest.takeWhile (fun d => !pyIsSpace d)) ::
        pyWordsAux fuel (rest.dropWhile (fun d => !pyIsSpace d))

/-- Python `s.split()` with no separator: maximal runs of non-whitespace,
empty pieces dropped. -/
def pyWords (s : PyStr) : List PyStr := pyWordsAux s.length s

/-- Python `sep.join(pieces)`. -/
def pyJoin (sep : PyStr) : List PyStr → PyStr
  | [] => []
  | [p] => p
  | p :: ps => p ++ sep ++ pyJoin sep ps

/-- Worker for `pySplit`: left-to-right scan emitting the accumulated piece
whenever the (non-overlapping) separator is found.  The fuel argument (at
least the length of the scanned string, which shrinks by at least one per
step) only guarantees structural termination. -/
def pySplitAux (sep : PyStr) : Nat → PyStr → PyStr → List PyStr
  | _, acc, [] => [acc.reverse]
  | 0, acc, s => [acc.reverse ++ s]
  | fuel + 1, acc, c :: rest =>
    if sep.isPrefixOf (c :: rest) then
      acc.reverse :: pySplitAux sep fuel [] (rest.drop (sep.length - 1))
    else
      pySplitAux sep fuel (c :: acc) rest

/-- Python `s.split(sep)` for a non-empty separator. -/
def pySplit (sep s : PyStr) : List PyStr := pySplitAux sep s.length [] s

/-- Python `sub in s` (substring containment, for non-empty `sub`): the split
on `sub` has more than one piece. -/
def pyContains (s sub : PyStr) : Bool := 1 < (pySplit sub s).length

/-- Python `s.split(sep)[-1]`: the final piece of the split. -/
def pyLastPiece (sep s : PyStr) : PyStr := (pySplit sep s).getLastD []

/-- `response.split('\n')[0] if '\n' in response else response` (line 275 of
`rag_pipeline.py`): truncate at the first newline. -/
def pyFirstLine (s : PyStr) : PyStr :=
  if pyContains s (pys "\n") then (pySplit (pys "\n") s).headD [] else s

section StableSort

variable {α : Type*}

/-- Insert `a` into `l` before the first element `b` with `le a b`.  Used to
model python's stable `list.sort`. -/
def insertBy (le : α → α → Bool) (a : α) : List α → List α
  | [] => [a]
  | b :: l => if le a b then a :: b :: l else b :: insertBy le a l

/-- Stable insertion sort: python's `list.sort` for a total preorder `le`
(equal elements keep their original relative order). -/
def sortBy (le : α → α → Bool) (l : List α) : List α := l.foldr (insertBy le) []

theorem insertBy_perm (le : α → α → Bool) (a : α) :
    ∀ l : List α, (insertBy le a l).Perm (a :: l) := by
  intro l
  induction l with
  | nil => simp [insertBy]
  | cons b l ih =>
    by_cases h : le a b
    · simp [insertBy, h]
    · simp only [insertBy, h, if_neg, Bool.false_eq_true, not_false_iff, ite_false]
      exact (ih.cons b).trans (List.Perm.swap a b l)

theorem sortBy_perm (le : α → α → Bool) :
    ∀ l : List α, (sortBy le l).Perm l := by
  intro l
  induction l with
  | nil => simp [sortBy]
  | cons a l ih =>
    have : sortBy le (a :: l) = insertBy le a (sortBy le l) := rfl
    rw [this]
    exact (insertBy_perm le a (sortBy le l)).trans (ih.cons a)

theorem mem_sortBy {le : α → α → Bool} {a : α} {l : List α} :
    a ∈ sortBy le l ↔ a ∈ l := (sortBy_perm le l).mem_iff

theorem length_sortBy (le : α → α → Bool) (l : List α) :
    (sortBy le l).length = l.length := (sortBy_perm le l).length_eq

theorem pairwise_insertBy {le : α → α → Bool}
    (total : ∀ a b, le a b = true ∨ le b a = true)
    (tr : ∀ a b c, le a b = true → le b c = true → le a c = true)
    (a : α) : ∀ {l : List α}, l.Pairwise (fun x y => le x y = true) →
      (insertBy le a l).Pairwise (fun x y => le x y = true) := by
  intro l
  induction l with
  | nil => intro _; simp [insertBy]
  | cons b l ih =>
    intro h
    rcases List.pairwise_cons.mp h with ⟨hb, hl⟩
    by_cases hab : le a b
    · simp only [insertBy, hab, if_true]
      refine List.pairwise_cons.mpr ⟨?_, h⟩
      intro x hx
      rcases List.mem_cons.mp hx with rfl | hx
      · exact hab
      · exact tr a b x hab (hb x hx)
    · simp only [insertBy, hab, Bool.false_eq_true, not_false_iff, if_neg, ite_false]
      refine List.pairwise_cons.mpr ⟨?_, ih hl⟩
      intro x hx
      have hx' : x ∈ a :: l := (insertBy_perm le a l).mem_iff.mp hx
      rcases List.mem_cons.mp hx' with h0 | hx'
      · rw [h0]
        rcases total a b with h' | h'
        · exact absurd h' hab
        · exact h'
      · exact hb x hx'

theorem pairwise_sortBy {le : α → α → Bool}
    (total : ∀ a b, le a b = true ∨ le b a = true)
    (tr : ∀ a b c, le a b = true → le b c = true → le a c = true)
    (l : List α) : (sortBy le l).Pairwise (fun x y => le x y = true) := by
  induction l with
  | nil => simp [sortBy]
  | cons a l ih => exact pairwise_insertBy total tr a ih

theorem sortBy_of_pairwise {le : α → α → Bool} :
    ∀ {l : List α}, l.Pairwise (fun x y => le x y = true) → sortBy le l = l := by
  intro l
  induction l with
  | nil => intro _; rfl
  | cons a l ih =>
    intro h
    rcases List.pairwise_cons.mp h with ⟨ha, hl⟩
    have : sortBy le (a :: l) = insertBy le a (sortBy le l) := rfl
    rw [this, ih hl]
    cases l with
    | nil => rfl
    | cons b l' => simp [insertBy, ha b (List.mem_cons_self b l')]

end StableSort

/-! ## Data model (`EnhancedRAGPipeline` state, `rag_pipeline.py` lines 19-35) -/

/-- One metadata record, appended per stored chunk
(`rag_pipeline.py` lines 175-179). -/
structure ChunkMeta where
  source : PyStr
  chunk_id : Nat
  original_length : Nat
deriving DecidableEq

/-- The FAISS `IndexFlatIP`: a fixed dimension and the appended vectors.
An `add` succeeds exactly when the vector has the index's dimension. -/
structure FaissIndex where
  dim : Nat
  vecs : List (List ℤ)
deriving DecidableEq

/-- In-memory pipeline state: the vector index plus the positionally parallel
`documents` / `metadata` lists. -/
structure PipeState where
  index : FaissIndex
  documents : List PyStr
  metadata : List ChunkMeta
deriving DecidableEq

/-- One formatted retrieval result (`rag_pipeline.py` lines 204-209). -/
structure SearchResult where
  content : PyStr
  source : PyStr
  chunk_id : Nat
  similarity_score : ℤ
deriving DecidableEq

/-- Placeholder metadata record for the (never exercised) out-of-range default
of `List.getD`. -/
def dMeta : ChunkMeta := ⟨[], 0, 0⟩

/-! ## Chunking (`chunk_text`, `rag_pipeline.py` lines 125-136) -/

/-- The python loop
`for i in range(0, len(words), size - overlap): append words[i:i+size]; break if i+size >= len(words)`
at token level.  The fuel argument only guarantees termination; it is chosen
large enough to never run out when the stride is positive. -/
def chunkWindowsAux (size stride : Nat) (ws : List PyStr) : Nat → Nat → List (List PyStr)
  | _, 0 => []
  | i, fuel + 1 =>
    if i < ws.length then
      let win := (ws.drop i).take size
      if ws.length ≤ i + size then [win]
      else win :: chunkWindowsAux size stride ws (i + stride) fuel
    else []

/-- All token windows visited by the `chunk_text` loop. -/
def chunkWindows (size stride : Nat) (ws : List PyStr) : List (List PyStr) :=
  chunkWindowsAux size stride ws 0 (ws.length + 1)

/-- `EnhancedRAGPipeline.chunk_text`: whitespace-split the text, slide a
window of `chunk_size` tokens advancing by `chunk_size - chunk_overlap`, and
join each window with single spaces.  The call sites use the python defaults
`chunk_size = 300`, `chunk_overlap = 50`. -/
def chunk_text (text : PyStr) (chunk_size chunk_overlap : Nat) : List PyStr :=
  (chunkWindows chunk_size (chunk_size - chunk_overlap) (pyWords text)).map (pyJoin (pys " "))

/-! ## Ingestion (`add_documents`, `rag_pipeline.py` lines 138-187) -/

/-- The per-chunk loop of `add_documents` (lines 166-181): keep a chunk iff
its stripped length exceeds 50, the embedding call succeeds, and the FAISS
`add` accepts the vector's dimension; each kept chunk contributes one vector,
one document and one metadata record, in order.  `embed` models
`embedding_model.encode` composed with `faiss.normalize_L2`; a `none` result
models the exception swallowed by the `except: continue`. -/
def ingestLoop (embed : PyStr → Option (List ℤ)) (dim : Nat) (textLen : Nat)
    (path : PyStr) : List (Nat × PyStr) → List (List ℤ) × List PyStr × List ChunkMeta
  | [] => ([], [], [])
  | (i, chunk) :: rest =>
    let tail := ingestLoop embed dim textLen path rest
    if 50 < (pyStrip chunk).length then
      match embed chunk with
      | some v =>
        if v.length = dim then
          (v :: tail.1, chunk :: tail.2.1, ⟨path, i, textLen⟩ :: tail.2.2)
        else tail
      | none => tail
    else tail

/-- The batch of documents a single `add_documents` call appends for a given
extracted text (depends on the index only through its fixed dimension). -/
def ingestedDocs (embed : PyStr → Option (List ℤ)) (dim : Nat)
    (file_path text : PyStr) : List PyStr :=
  if pyStrip text = [] then []
  else (ingestLoop embed dim text.length file_path
          (chunk_text text 300 50).enum).2.1

/-- `EnhancedRAGPipeline.add_documents` on already-extracted text (the
PDF/TXT/DOCX text extraction is an external capability; `text` is its
result).  Empty stripped text returns early; otherwise the text is chunked
with the default window 300 / overlap 50, the per-chunk loop runs, and when
at least one chunk survived the three parallel sequences are extended. -/
def add_documents (embed : PyStr → Option (List ℤ)) (st : PipeState)
    (file_path text : PyStr) : PipeState :=
  if pyStrip text = [] then st
  else
    let r := ingestLoop embed st.index.dim text.length file_path
               (chunk_text text 300 50).enum
    if r.2.1 = [] then st
    else
      ⟨⟨st.index.dim, st.index.vecs ++ r.1⟩,
        st.documents ++ r.2.1, st.metadata ++ r.2.2⟩

/-! ## Search (`search_similar`, `rag_pipeline.py` lines 189-216) -/

/-- Inner product of two rational vectors. -/
def dotQ (q v : List ℤ) : ℤ := ((q.zip v).map (fun p => p.1 * p.2)).foldr (· + ·) 0

/-- Ranking order of the flat index: higher score first, ties by lower
insertion position. -/
def rankLe (a b : Nat × ℤ) : Bool := decide (b.2 < a.2 ∨ (a.2 = b.2 ∧ a.1 ≤ b.1))

/-- Modelled from the spec: `faiss.IndexFlatIP.search` (the FAISS library is
external to the repository).  Spec §4.2: brute-force inner product over all
stored vectors, the `k` highest scores descending, ties broken by ascending
insertion position. -/
def faissSearch (vecs : List (List ℤ)) (q : List ℤ) (k : Nat) : List (Nat × ℤ) :=
  (sortBy rankLe ((vecs.map (dotQ q)).enum)).take k

/-- Build one formatted result from an index position reported by the FAISS
search, guarded by `0 <= idx < len(self.documents)` (lines 202-209); an
out-of-range position yields nothing. -/
def mkResult (docs : List PyStr) (meta : List ChunkMeta) (p : Int × ℤ) :
    Option SearchResult :=
  if 0 ≤ p.1 ∧ p.1 < (docs.length : Int) then
    some ⟨docs.getD p.1.toNat [], (meta.getD p.1.toNat dMeta).source,
          (meta.getD p.1.toNat dMeta).chunk_id, p.2⟩
  else none

/-- Result-list order used by the final
`formatted_results.sort(key=..., reverse=True)`: descending similarity score,
stable on ties. -/
def resLe (a b : SearchResult) : Bool := decide (b.similarity_score ≤ a.similarity_score)

/-- Lines 201-212: keep in-range positions, join each with the document and
metadata at that position, and stable-sort by descending score. -/
def formatAndSort (raw : List (Int × ℤ)) (docs : List PyStr)
    (meta : List ChunkMeta) : List SearchResult :=
  sortBy resLe (raw.filterMap (mkResult docs meta))

/-- `EnhancedRAGPipeline.search_similar`: empty corpus returns `[]`; an
embedding failure is swallowed by the `except` and returns `[]`; otherwise
the index is searched with `k` clamped to `min n_results len(documents)` and
the hits are formatted and sorted. -/
def search_similar (embed : PyStr → Option (List ℤ)) (st : PipeState)
    (query : PyStr) (n_results : Nat) : List SearchResult :=
  if st.documents.length = 0 then []
  else
    match embed query with
    | none => []
    | some qv =>
      formatAndSort
        ((faissSearch st.index.vecs qv (min n_results st.documents.length)).map
          (fun p => ((p.1 : Int), p.2)))
        st.documents st.metadata

/-! ## Answer synthesis (`generate_response`, `rag_pipeline.py` lines 218-311) -/

/-- The extraction marker (`"Answer:"`, lines 267-268). -/
def answerMarker : PyStr := pys "Answer:"

/-- Lines 225-233: the context block of the prompt, built from the top two
results; each content is whitespace-collapsed (`' '.join(content.split())`)
and truncated to 400 characters with an ellipsis. -/
def buildContextText (context : List SearchResult) : PyStr :=
  ((context.take 2).enum.map (fun p =>
    let content := pyJoin (pys " ") (pyWords p.2.content)
    let content := if 400 < content.length then content.take 400 ++ pys "..." else content
    pys "Source " ++ (Nat.repr (p.1 + 1)).data ++ pys ": " ++ content ++ pys "\n\n")).flatten

/-- Lines 236-241: the full instruction prompt handed to the generator. -/
def buildPrompt (query : PyStr) (context : List SearchResult) : PyStr :=
  pys "Here is some information from documents:\n\n" ++ buildContextText context ++
    pys "\nBased on this information, answer the following question: " ++ query ++
    pys "\n\nAnswer:"

/-- Lines 262-275, the extraction applied to the generator's raw output:
if the prompt occurs in the output, keep the stripped text after its last
occurrence; else if `"Answer:"` occurs, keep the stripped text after its last
occurrence; else keep the full output; finally truncate at the first
newline. -/
def extractAnswer (prompt raw : PyStr) : PyStr :=
  let response :=
    if pyContains raw prompt then pyStrip (pyLastPiece prompt raw)
    else if pyContains raw answerMarker then pyStrip (pyLastPiece answerMarker raw)
    else raw
  pyFirstLine response

/-- Lines 279-290, the quality-gate fallback: from each of the top two
results take the text up to the first `'.'` (or the first 150 characters when
no `'.'` occurs), strip it, join the parts after a fixed preamble, and cap
the whole string at 300 characters with an ellipsis. -/
def fallbackResponse (context : List SearchResult) : PyStr :=
  let key_points := (context.take 2).map (fun item =>
    pyStrip (if pyContains item.content (pys ".")
             then (pySplit (pys ".") item.content).headD item.content
             else item.content.take 150))
  let response :=
    pys "Based on the Baguio City ordinances, here are some key traffic rules: " ++
      pyJoin (pys " ") key_points
  if 300 < response.length then response.take 300 ++ pys "..." else response

/-- Lines 296-311, the `except` branch taken when the generator itself
raises: summarize the top two results (first sentence plus `"."`, or the
stripped 200-character head plus an ellipsis). -/
def exceptFallback (context : List SearchResult) : PyStr :=
  if context = [] then
    pys "I found traffic regulation information but couldn\x27t generate a detailed response."
  else
    let summary_parts := (context.take 2).map (fun item =>
      let sentences := pySplit (pys ".") item.content
      if 1 < sentences.length then pyStrip (sentences.headD []) ++ pys "."
      else pyStrip (item.content.take 200) ++ pys "...")
    pys "Based on Baguio City ordinances: " ++ pyJoin (pys " ") summary_parts

/-- `EnhancedRAGPipeline.generate_response`.  The external generator is the
parameter `gen`, applied to the built prompt; `none` models a raised
exception (routed to the `except` fallback).  On a successful generation the
answer is extracted, and the quality gate
`if not response or len(response.strip()) < 20` (line 278) routes low-quality
text to the deterministic fallback. -/
def generate_response (gen : PyStr → Option PyStr) (query : PyStr)
    (context : List SearchResult) : PyStr :=
  if context = [] then
    pys "I couldn\x27t find relevant information in my knowledge base to answer your question."
  else
    let prompt := buildPrompt query context
    match gen prompt with
    | none => exceptFallback context
    | some raw =>
      let response := extractAnswer prompt raw
      if response = [] ∨ (pyStrip response).length < 20 then fallbackResponse context
      else response

/-! ## Persistence (`_save_faiss_index` lines 116-123, `_setup_faiss_index`
lines 97-114) -/

/-- The two persisted files.  Each is `none` when absent, `some none` when
present but unreadable (corrupt), and `some (some x)` when readable. -/
structure FileSys where
  indexFile : Option (Option FaissIndex)
  metaFile : Option (Option (List PyStr × List ChunkMeta))
deriving DecidableEq

/-- `faiss.write_index(self.index, self.index_path)` (line 118): an in-place
whole-file write of the index file. -/
def writeIndexFile (idx : FaissIndex) (fs : FileSys) : FileSys :=
  ⟨some (some idx), fs.metaFile⟩

/-- `pickle.dump({'documents': ..., 'metadata': ...}, f)` (lines 119-123): an
in-place whole-file write of the metadata file. -/
def writeMetaFile (dm : List PyStr × List ChunkMeta) (fs : FileSys) : FileSys :=
  ⟨fs.indexFile, some (some dm)⟩

/-- `_save_faiss_index` as its sequence of file-system effects: first the
index file is written, then the metadata file; there is no temporary file and
no rename. -/
def saveSteps (st : PipeState) : List (FileSys → FileSys) :=
  [writeIndexFile st.index, writeMetaFile (st.documents, st.metadata)]

/-- Run a prefix-interruptible effect sequence; `runSteps (l.take n) fs` is
the file system visible after a crash that interrupted the sequence after its
first `n` steps. -/
def runSteps (steps : List (FileSys → FileSys)) (fs : FileSys) : FileSys :=
  steps.foldl (fun f g => g f) fs

/-- The embedding dimension fixed in `_setup_models` (line 43). -/
def embeddingDim : Nat := 384

/-- `_setup_faiss_index`: when both files exist they are read (a read failure
raises and propagates out of the constructor — modelled as `Except.error`);
when either is missing a fresh empty index is created.  No vector/metadata
count comparison is performed. -/
def setup_faiss_index (fs : FileSys) : Except PyStr PipeState :=
  match fs.indexFile, fs.metaFile with
  | some idxRead, some metaRead =>
    match idxRead, metaRead with
    | some idx, some dm => .ok ⟨idx, dm.1, dm.2⟩
    | _, _ => .error (pys "unpickling/read error propagates; startup aborts")
  | _, _ => .ok ⟨⟨embeddingDim, []⟩, [], []⟩

/-- The extraction state machine exactly as the specification words it (for
comparison with `extractAnswer`, which is translated from the code):
`PROMPT_ECHOED`: raw output begins with the prompt verbatim, strip the prefix
and keep the remainder; `MARKER_FOUND`: else if `"Answer:"` appears, keep the
text after its last occurrence; `RAW`: else keep the full output; then
truncate at the first newline. -/
def extractAnswerClaimed (prompt raw : PyStr) : PyStr :=
  let kept :=
    if prompt.isPrefixOf raw then raw.drop prompt.length
    else if pyContains raw answerMarker then pyLastPiece answerMarker raw
    else raw
  pyFirstLine kept

/-- Concrete inputs used by witnesses and counterexamples below: an embedding
stub mapping every text to the one-dimensional vector `[1]`. -/
def embedOne : PyStr → Option (List ℤ) := fun _ => some [1]

/-! ## Theorems -/

/-! ### C7 — persistence is not atomic -/

/-- Claim C7 (as stated) is false: `_save_faiss_index` writes the index file
and then the metadata file in place; interrupting the sequence after its
first step leaves a file-system state that is neither the old pair nor the
new pair — a partially updated pair visible to a subsequent load. -/
theorem save_not_atomic_counterexample :
    ¬ (runSteps ((saveSteps ⟨⟨1, [[1]]⟩, [pys "d"], [⟨pys "p", 0, 1⟩]⟩).take 1)
         ⟨some (some ⟨1, []⟩), some (some ([], []))⟩ =
         ⟨some (some ⟨1, []⟩), some (some ([], []))⟩ ∨
       runSteps ((saveSteps ⟨⟨1, [[1]]⟩, [pys "d"], [⟨pys "p", 0, 1⟩]⟩).take 1)
         ⟨some (some ⟨1, []⟩), some (some ([], []))⟩ =
         runSteps (saveSteps ⟨⟨1, [[1]]⟩, [pys "d"], [⟨pys "p", 0, 1⟩]⟩)
           ⟨some (some ⟨1, []⟩), some (some ([], []))⟩) := by
  decide

/-- Claim C7 amended: `save()` writes the index file and then the metadata
file sequentially in place, with no temporary file and no rename; a completed
save persists exactly the new pair, but the crash point between the two
writes exposes the new index file next to the old metadata file. -/
theorem save_sequential_not_atomic (st : PipeState) (fs : FileSys) :
    runSteps (saveSteps st) fs =
      ⟨some (some st.index), some (some (st.documents, st.metadata))⟩ ∧
    runSteps ((saveSteps st).take 1) fs = ⟨some (some st.index), fs.metaFile⟩ :=
  ⟨rfl, rfl⟩

/-! ### C8 — load performs no count check and does not absorb read errors -/

/-- Claim C8 (as stated) is false: with both persisted files readable but the
vector count (1) different from the metadata count (0), `_setup_faiss_index`
loads successfully instead of failing with `CorruptState`. -/
theorem load_no_count_check_counterexample :
    setup_faiss_index ⟨some (some ⟨1, [[1]]⟩), some (some ([], []))⟩ =
      Except.ok ⟨⟨1, [[1]]⟩, [], []⟩ ∧
    (⟨⟨1, [[1]]⟩, [], []⟩ : PipeState).index.vecs.length ≠
      (⟨⟨1, [[1]]⟩, [], []⟩ : PipeState).metadata.length := by
  constructor
  · rfl
  · decide

/-- Claim C8 amended: `_setup_faiss_index` reads the persisted pair only when
both files exist, and otherwise initializes an empty index and continues; it
performs no vector/metadata count comparison, so a mismatched pair loads
successfully; and a read failure on a present file propagates out of startup
instead of being replaced by an empty index. -/
theorem setup_faiss_index_behavior (fs : FileSys) :
    (fs.indexFile = none ∨ fs.metaFile = none →
      setup_faiss_index fs = Except.ok ⟨⟨embeddingDim, []⟩, [], []⟩) ∧
    (∀ idx dm, fs.indexFile = some (some idx) → fs.metaFile = some (some dm) →
      setup_faiss_index fs = Except.ok ⟨idx, dm.1, dm.2⟩) ∧
    (∀ r r', fs.indexFile = some r → fs.metaFile = some r' →
      (r = none ∨ r' = none) →
      ∃ msg, setup_faiss_index fs = Except.error msg) := by
  obtain ⟨fi, fm⟩ := fs
  refine ⟨?_, ?_, ?_⟩
  · rintro (rfl | rfl)
    · cases fm <;> rfl
    · cases fi <;> rfl
  · rintro idx dm rfl rfl; rfl
  · rintro r r' rfl rfl (rfl | rfl)
    · cases r' <;> exact ⟨_, rfl⟩
    · cases r
      · exact ⟨_, rfl⟩
      · exact ⟨_, rfl⟩

/-- Witness for `setup_faiss_index_behavior`: a present, readable pair loads
as-is. -/
theorem setup_faiss_index_behavior_witness :
    setup_faiss_index ⟨some (some ⟨2, []⟩), some (some ([pys "d"], [⟨pys "p", 0, 1⟩]))⟩ =
      Except.ok ⟨⟨2, []⟩, [pys "d"], [⟨pys "p", 0, 1⟩]⟩ :=
  (setup_faiss_index_behavior _).2.1 ⟨2, []⟩ ([pys "d"], [⟨pys "p", 0, 1⟩]) rfl rfl

/-! ### C1 — ingestion is not idempotent per source path -/

/-- The three sequences produced by `ingestLoop` grow in lockstep: one vector
per document per metadata record. -/
theorem ingestLoop_lockstep (embed : PyStr → Option (List ℤ)) (dim textLen : Nat)
    (path : PyStr) : ∀ l : List (Nat × PyStr),
    (ingestLoop embed dim textLen path l).1.length =
      (ingestLoop embed dim textLen path l).2.2.length ∧
    (ingestLoop embed dim textLen path l).2.1.length =
      (ingestLoop embed dim textLen path l).2.2.length := by
  intro l
  induction l with
  | nil => exact ⟨rfl, rfl⟩
  | cons hd tl ih =>
    obtain ⟨i, chunk⟩ := hd
    simp only [ingestLoop]
    by_cases h1 : 50 < (pyStrip chunk).length
    · simp only [h1, if_true]
      cases h2 : embed chunk with
      | none => exact ih
      | some v =>
        by_cases h3 : v.length = dim
        · simp only [h3, if_true, List.length_cons]
          exact ⟨congrArg Nat.succ ih.1, congrArg Nat.succ ih.2⟩
        · simp only [h3, if_false]
          exact ih
    · simp only [h1, if_false]
      exact ih

/-- `add_documents` always appends exactly the batch `ingestedDocs`, and
leaves the index dimension unchanged. -/
theorem add_documents_appends (embed : PyStr → Option (List ℤ)) (st : PipeState)
    (p t : PyStr) :
    (add_documents embed st p t).documents =
      st.documents ++ ingestedDocs embed st.index.dim p t ∧
    (add_documents embed st p t).index.dim = st.index.dim := by
  unfold add_documents ingestedDocs
  by_cases h1 : pyStrip t = []
  · simp [h1]
  · simp only [h1, if_false]
    by_cases h2 :
        (ingestLoop embed st.index.dim t.length p (chunk_text t 300 50).enum).2.1 = []
    · simp [h2]
    · simp [h2]

/-- Claim C1 (as stated) is false at a concrete input: starting from the
empty pipeline, ingesting the same 60-character text under the same source
path twice yields a state different from ingesting it once (the chunk is
embedded and appended again; there is no processed-path check). -/
theorem add_documents_reingest_counterexample :
    add_documents embedOne
        (add_documents embedOne ⟨⟨1, []⟩, [], []⟩ (pys "doc.txt")
          (pys "aaaaaaaaaaaaaaaaaaaaaaaaaaaaaaaaaaaaaaaaaaaaaaaaaaaaaaaaaaaa"))
        (pys "doc.txt")
        (pys "aaaaaaaaaaaaaaaaaaaaaaaaaaaaaaaaaaaaaaaaaaaaaaaaaaaaaaaaaaaa") ≠
      add_documents embedOne ⟨⟨1, []⟩, [], []⟩ (pys "doc.txt")
        (pys "aaaaaaaaaaaaaaaaaaaaaaaaaaaaaaaaaaaaaaaaaaaaaaaaaaaaaaaaaaaa") := by
  decide

/-- Claim C1 amended: `add_documents` performs no already-processed check and
returns no chunk list; re-ingesting the same source path re-chunks,
re-embeds and appends the very same batch again, so two ingests of a path
append its batch twice (state is unchanged only when the batch is empty).
The skip-if-processed behaviour exists only in the separate
`PDFProcessor.process_pdf_directory` path. -/
theorem add_documents_reingest_appends_again (embed : PyStr → Option (List ℤ))
    (st : PipeState) (p t : PyStr) :
    (add_documents embed st p t).documents =
      st.documents ++ ingestedDocs embed st.index.dim p t ∧
    (add_documents embed (add_documents embed st p t) p t).documents =
      st.documents ++ ingestedDocs embed st.index.dim p t ++
        ingestedDocs embed st.index.dim p t := by
  obtain ⟨h1, hdim⟩ := add_documents_appends embed st p t
  obtain ⟨h2, _⟩ := add_documents_appends embed (add_documents embed st p t) p t
  refine ⟨h1, ?_⟩
  rw [h2, hdim, h1, List.append_assoc]

/-! ### C2 — vector count equals metadata count after every ingest -/

/-- Claim C2: after every `add_documents` call — including calls where chunks
were skipped by the length filter, an embedding failure or a dimension
mismatch — the number of vectors stored in the index equals the number of
metadata records, provided the invariant held before the call. -/
theorem add_documents_count_invariant (embed : PyStr → Option (List ℤ))
    (st : PipeState) (p t : PyStr)
    (h : st.index.vecs.length = st.metadata.length) :
    (add_documents embed st p t).index.vecs.length =
      (add_documents embed st p t).metadata.length := by
  unfold add_documents
  by_cases h1 : pyStrip t = []
  · simpa [h1] using h
  · simp only [h1, if_false]
    by_cases h2 :
        (ingestLoop embed st.index.dim t.length p (chunk_text t 300 50).enum).2.1 = []
    · simpa [h2] using h
    · have hlock := ingestLoop_lockstep embed st.index.dim t.length p
        (chunk_text t 300 50).enum
      simp only [h2, if_false, List.length_append]
      rw [h, hlock.1]

/-- Witness for `add_documents_count_invariant`: a successful ingest of one
chunk into the empty pipeline. -/
theorem add_documents_count_invariant_witness :
    (⟨⟨1, []⟩, [], []⟩ : PipeState).index.vecs.length =
      (⟨⟨1, []⟩, [], []⟩ : PipeState).metadata.length ∧
    (add_documents embedOne ⟨⟨1, []⟩, [], []⟩ (pys "doc.txt")
        (pys "aaaaaaaaaaaaaaaaaaaaaaaaaaaaaaaaaaaaaaaaaaaaaaaaaaaaaaaaaaaa")).index.vecs.length =
      (add_documents embedOne ⟨⟨1, []⟩, [], []⟩ (pys "doc.txt")
        (pys "aaaaaaaaaaaaaaaaaaaaaaaaaaaaaaaaaaaaaaaaaaaaaaaaaaaaaaaaaaaa")).metadata.length :=
  ⟨rfl, add_documents_count_invariant embedOne ⟨⟨1, []⟩, [], []⟩ _ _ rfl⟩

/-! ### C9 — sliding-window chunking covers every token -/

/-- A token inside the window starting at `i` belongs to that window. -/
theorem mem_window {ws : List PyStr} {i j size : Nat} (hij : i ≤ j)
    (hjs : j < i + size) (hjl : j < ws.length) :
    ws.get ⟨j, hjl⟩ ∈ (ws.drop i).take size := by
  have hlt : j - i < size := by omega
  have h1 : ((ws.drop i).take size)[j - i]? = (ws.drop i)[j - i]? := by
    rw [List.getElem?_take]
    simp [hlt]
  have h2 : (ws.drop i)[j - i]? = ws[i + (j - i)]? := List.getElem?_drop ws i (j - i)
  have h3 : i + (j - i) = j := by omega
  have h4 : ws[j]? = some (ws.get ⟨j, hjl⟩) := by
    simp [List.getElem?_eq_getElem hjl]
  exact List.getElem?_mem (by rw [h1, h2, h3, h4])

/-- Core coverage invariant of the `chunk_text` loop: with a positive stride
bounded by the window size, every token at or beyond the current start index
lands in some emitted window (in particular the final, possibly short, window
is emitted). -/
theorem chunkWindowsAux_cover {size stride : Nat} {ws : List PyStr}
    (hs : 0 < stride) (hss : stride ≤ size) :
    ∀ fuel i j, i ≤ j → ∀ (hj : j < ws.length), ws.length - i < fuel →
    ∃ win ∈ chunkWindowsAux size stride ws i fuel, ws.get ⟨j, hj⟩ ∈ win := by
  intro fuel
  induction fuel with
  | zero => intro i j _ _ hf; omega
  | succ fuel ih =>
    intro i j hij hj hf
    have hi : i < ws.length := lt_of_le_of_lt hij hj
    by_cases hend : ws.length ≤ i + size
    · refine ⟨(ws.drop i).take size, ?_, mem_window hij (by omega) hj⟩
      simp [chunkWindowsAux, hi, hend]
    · by_cases hjw : j < i + size
      · refine ⟨(ws.drop i).take size, ?_, mem_window hij hjw hj⟩
        simp [chunkWindowsAux, hi, hend]
      · obtain ⟨win, hwin, hmem⟩ := ih (i + stride) j (by omega) hj (by omega)
        refine ⟨win, ?_, hmem⟩
        simp only [chunkWindowsAux, hi, if_true, hend, if_false]
        exact List.mem_cons_of_mem _ hwin

/-- Claim C9: `chunk_text` is a sliding window over the whitespace tokens of
the text with window size `chunk_size` and stride `chunk_size - overlap`
(the code's defaults are 300 and 50), each window joined with single spaces;
whenever the overlap is smaller than the window, every token of the input
appears in at least one window — the final window included even when it is
shorter than the window size. -/
theorem chunk_text_token_coverage (text : PyStr) (size overlap : Nat)
    (hov : overlap < size) :
    chunk_text text size overlap =
      (chunkWindows size (size - overlap) (pyWords text)).map (pyJoin (pys " ")) ∧
    ∀ j (hj : j < (pyWords text).length),
      ∃ win ∈ chunkWindows size (size - overlap) (pyWords text),
        (pyWords text).get ⟨j, hj⟩ ∈ win := by
  refine ⟨rfl, ?_⟩
  intro j hj
  exact chunkWindowsAux_cover (by omega) (by omega) ((pyWords text).length + 1) 0 j
    (Nat.zero_le j) hj (by omega)

/-- Witness for `chunk_text_token_coverage` at the code's default parameters
on a two-token text. -/
theorem chunk_text_token_coverage_witness :
    (50 : Nat) < 300 ∧ 0 < (pyWords (pys "hello world")).length ∧
    ∃ win ∈ chunkWindows 300 (300 - 50) (pyWords (pys "hello world")),
      (pyWords (pys "hello world")).get ⟨0, by decide⟩ ∈ win :=
  ⟨by decide, by decide,
    (chunk_text_token_coverage (pys "hello world") 300 50 (by decide)).2 0 (by decide)⟩

/-! ### C3 — quality gate routes to a non-empty grounded fallback -/

/-- The quality-gate fallback text is never empty: it always carries the
fixed preamble, and the 300-character cap appends a non-empty ellipsis. -/
theorem fallbackResponse_ne_nil (context : List SearchResult) :
    fallbackResponse context ≠ [] := by
  unfold fallbackResponse
  set response :=
    pys "Based on the Baguio City ordinances, here are some key traffic rules: " ++
      pyJoin (pys " ") ((context.take 2).map (fun item =>
        pyStrip (if pyContains item.content (pys ".")
                 then (pySplit (pys ".") item.content).headD item.content
                 else item.content.take 150))) with hresp
  by_cases h : 300 < response.length
  · simp only [h, if_true]
    intro hnil
    have := congrArg List.length hnil
    simp only [List.length_append, List.length_nil] at this
    have h3 : (pys "...").length = 3 := by decide
    omega
  · simp only [h, if_false]
    intro hnil
    have := congrArg List.length hnil
    simp only [List.length_append, List.length_nil] at this
    have h70 :
        (pys "Based on the Baguio City ordinances, here are some key traffic rules: ").length
          = 70 := by decide
    omega

/-- Claim C3: when the extracted generation text is empty or strips to fewer
than 20 characters, `generate_response` transitions to the deterministic
fallback built from the top results (first sentence, or 150-character head
when no `'.'` occurs), and that fallback text is non-empty whenever at least
one retrieval result exists. -/
theorem generate_response_quality_gate (gen : PyStr → Option PyStr)
    (query : PyStr) (context : List SearchResult) (raw : PyStr)
    (hctx : context ≠ [])
    (hgen : gen (buildPrompt query context) = some raw)
    (hgate : extractAnswer (buildPrompt query context) raw = [] ∨
      (pyStrip (extractAnswer (buildPrompt query context) raw)).length < 20) :
    generate_response gen query context = fallbackResponse context ∧
      fallbackResponse context ≠ [] := by
  refine ⟨?_, fallbackResponse_ne_nil context⟩
  unfold generate_response
  simp only [hctx, if_false, hgen]
  simp [hgate]

/-- Witness for `generate_response_quality_gate`: one retrieval result, a
generator returning the empty string; the gate fires and the fallback is the
first sentence of the result behind the fixed preamble. -/
theorem generate_response_quality_gate_witness :
    ([⟨pys "Hello world. More text", pys "a.pdf", 0, 22⟩] : List SearchResult) ≠ [] ∧
    (extractAnswer
        (buildPrompt (pys "q") [⟨pys "Hello world. More text", pys "a.pdf", 0, 22⟩]) [] = [] ∨
      (pyStrip (extractAnswer
        (buildPrompt (pys "q") [⟨pys "Hello world. More text", pys "a.pdf", 0, 22⟩]) [])).length < 20) ∧
    generate_response (fun _ => some []) (pys "q")
        [⟨pys "Hello world. More text", pys "a.pdf", 0, 22⟩] =
      fallbackResponse [⟨pys "Hello world. More text", pys "a.pdf", 0, 22⟩] ∧
    fallbackResponse [⟨pys "Hello world. More text", pys "a.pdf", 0, 22⟩] ≠ [] :=
  ⟨by decide, by decide,
    generate_response_quality_gate (fun _ => some []) (pys "q")
      [⟨pys "Hello world. More text", pys "a.pdf", 0, 22⟩] [] (by decide) rfl (by decide)⟩

/-! ### C6 — the extraction state machine differs from the claim -/

set_option maxRecDepth 40000 in
/-- Claim C6 (as stated) is false at a concrete input.  With the prompt built
from query `"q"` and one result of content `"abc"`, and the raw generator
output `"x " ++ prompt ++ " z Answer: w"`: the output does not begin with the
prompt, so the claimed machine takes the marker branch and keeps `" w"`; the
code, however, tests `prompt in response` (containment, not prefix), splits
on the last occurrence of the whole prompt and strips, keeping
`"z Answer: w"`. -/
theorem extract_answer_claim_counterexample :
    extractAnswerClaimed
        (buildPrompt (pys "q") [⟨pys "abc", pys "a.pdf", 0, 1⟩])
        (pys "x " ++ buildPrompt (pys "q") [⟨pys "abc", pys "a.pdf", 0, 1⟩] ++
          pys " z Answer: w") ≠
      extractAnswer
        (buildPrompt (pys "q") [⟨pys "abc", pys "a.pdf", 0, 1⟩])
        (pys "x " ++ buildPrompt (pys "q") [⟨pys "abc", pys "a.pdf", 0, 1⟩] ++
          pys " z Answer: w") := by
  decide

/-- Claim C6 amended: if the prompt occurs anywhere in the raw output (not
only as a leading prefix), the extraction keeps the whitespace-stripped text
after the prompt's last occurrence; otherwise, if `"Answer:"` occurs, it
keeps the whitespace-stripped text after its last occurrence; otherwise it
keeps the full output; in every case the kept text is then truncated at the
first newline. -/
theorem extract_answer_amended (prompt raw : PyStr) :
    (pyContains raw prompt = true →
      extractAnswer prompt raw = pyFirstLine (pyStrip (pyLastPiece prompt raw))) ∧
    (pyContains raw prompt = false → pyContains raw answerMarker = true →
      extractAnswer prompt raw = pyFirstLine (pyStrip (pyLastPiece answerMarker raw))) ∧
    (pyContains raw prompt = false → pyContains raw answerMarker = false →
      extractAnswer prompt raw = pyFirstLine raw) := by
  refine ⟨?_, ?_, ?_⟩
  · intro h1; simp [extractAnswer, h1]
  · intro h1 h2; simp [extractAnswer, h1, h2]
  · intro h1 h2; simp [extractAnswer, h1, h2]

/-- Witness for `extract_answer_amended`: the prompt `"P"` occurs (mid-string)
in `"aPb"`, and the extraction keeps the stripped last piece. -/
theorem extract_answer_amended_witness :
    pyContains (pys "aPb") (pys "P") = true ∧
    extractAnswer (pys "P") (pys "aPb") =
      pyFirstLine (pyStrip (pyLastPiece (pys "P") (pys "aPb"))) :=
  ⟨by decide, (extract_answer_amended (pys "P") (pys "aPb")).1 (by decide)⟩

/-! ### C4 / C5 / C10 — search ordering, clamping, emptiness and alignment -/

theorem rankLe_total : ∀ a b : Nat × ℤ, rankLe a b = true ∨ rankLe b a = true := by
  intro a b
  unfold rankLe
  rcases lt_trichotomy a.2 b.2 with h | h | h
  · right; exact decide_eq_true (Or.inl h)
  · rcases le_total a.1 b.1 with h1 | h1
    · left; exact decide_eq_true (Or.inr ⟨h, h1⟩)
    · right; exact decide_eq_true (Or.inr ⟨h.symm, h1⟩)
  · left; exact decide_eq_true (Or.inl h)

theorem rankLe_trans : ∀ a b c : Nat × ℤ,
    rankLe a b = true → rankLe b c = true → rankLe a c = true := by
  intro a b c hab hbc
  have h1 := of_decide_eq_true hab
  have h2 := of_decide_eq_true hbc
  apply decide_eq_true
  rcases h1 with h1 | ⟨h1e, h1p⟩ <;> rcases h2 with h2 | ⟨h2e, h2p⟩
  · exact Or.inl (lt_trans h2 h1)
  · exact Or.inl (h2e ▸ h1)
  · exact Or.inl (by rw [h1e]; exact h2)
  · exact Or.inr ⟨h1e.trans h2e, le_trans h1p h2p⟩

theorem resLe_total : ∀ a b : SearchResult, resLe a b = true ∨ resLe b a = true := by
  intro a b
  unfold resLe
  rcases le_total a.similarity_score b.similarity_score with h | h
  · right; exact decide_eq_true h
  · left; exact decide_eq_true h

theorem resLe_trans : ∀ a b c : SearchResult,
    resLe a b = true → resLe b c = true → resLe a c = true := by
  intro a b c hab hbc
  exact decide_eq_true (le_trans (of_decide_eq_true hbc) (of_decide_eq_true hab))

/-- The modelled FAISS flat search returns hits sorted by strictly descending
score with ties broken by strictly ascending insertion position. -/
theorem faissSearch_sorted (vecs : List (List ℤ)) (q : List ℤ) (k : Nat) :
    (faissSearch vecs q k).Pairwise
      (fun a b => b.2 < a.2 ∨ (a.2 = b.2 ∧ a.1 < b.1)) := by
  unfold faissSearch
  have hpw : (sortBy rankLe ((vecs.map (dotQ q)).enum)).Pairwise
      (fun x y => rankLe x y = true) :=
    pairwise_sortBy rankLe_total rankLe_trans _
  have hnd : ((sortBy rankLe ((vecs.map (dotQ q)).enum)).map Prod.fst).Nodup := by
    have hperm := (sortBy_perm rankLe ((vecs.map (dotQ q)).enum)).map Prod.fst
    rw [hperm.nodup_iff, List.enum_map_fst]
    exact List.nodup_range _
  have hpwk := hpw.sublist (List.take_sublist k _)
  have hndk : (((sortBy rankLe ((vecs.map (dotQ q)).enum)).take k).map Prod.fst).Nodup := by
    rw [List.map_take]
    exact hnd.sublist (List.take_sublist k _)
  have hne := (List.pairwise_map.mp hndk)
  refine (hpwk.and hne).imp ?_
  intro a b hab
  obtain ⟨h1, h2⟩ := hab
  rcases of_decide_eq_true h1 with h | ⟨he, hp⟩
  · exact Or.inl h
  · exact Or.inr ⟨he, lt_of_le_of_ne hp h2⟩

/-- Every result built by `mkResult` carries the reported score unchanged. -/
theorem mkResult_score {docs : List PyStr} {meta : List ChunkMeta}
    {p : Int × ℤ} {r : SearchResult} (h : mkResult docs meta p = some r) :
    r.similarity_score = p.2 := by
  unfold mkResult at h
  split at h
  · cases h; rfl
  · cases h

/-- The final python `sort` of `search_similar` is a no-op: the formatted
hits are already in the order the index search reported them. -/
theorem search_similar_eq_faiss (embed : PyStr → Option (List ℤ)) (st : PipeState)
    (query : PyStr) (k : Nat) (qv : List ℤ)
    (h0 : st.documents.length ≠ 0) (hemb : embed query = some qv) :
    search_similar embed st query k =
      ((faissSearch st.index.vecs qv (min k st.documents.length)).map
        (fun p => ((p.1 : Int), p.2))).filterMap (mkResult st.documents st.metadata) := by
  unfold search_similar
  simp only [h0, if_false, hemb]
  unfold formatAndSort
  apply sortBy_of_pairwise
  have hfs := faissSearch_sorted st.index.vecs qv (min k st.documents.length)
  have hmap : (((faissSearch st.index.vecs qv (min k st.documents.length)).map
      (fun p => ((p.1 : Int), p.2)))).Pairwise (fun a b => b.2 ≤ a.2) := by
    refine List.Pairwise.map _ ?_ hfs
    intro a b hab
    rcases hab with h | ⟨he, _⟩
    · exact le_of_lt h
    · exact le_of_eq he.symm
  refine hmap.filterMap (mkResult st.documents st.metadata) ?_
  intro a b hab c hc d hd
  unfold resLe
  apply decide_eq_true
  rw [mkResult_score hc, mkResult_score hd]
  exact hab

/-- Claim C4: for every query and `k`, `search_similar` returns its results
in the order reported by the index search — strictly descending similarity
score with ties broken by ascending insertion position (the FAISS flat
search is modelled from spec §4.2) — the returned list is sorted by
descending score, and at most `min k` (stored vectors) results are returned
(`k` is clamped, never an error). -/
theorem search_similar_ranking :
    (∀ (vecs : List (List ℤ)) (q : List ℤ) (k : Nat),
      (faissSearch vecs q k).Pairwise
        (fun a b => b.2 < a.2 ∨ (a.2 = b.2 ∧ a.1 < b.1))) ∧
    (∀ (embed : PyStr → Option (List ℤ)) (st : PipeState) (query : PyStr) (k : Nat),
      (search_similar embed st query k).Pairwise
        (fun a b => b.similarity_score ≤ a.similarity_score)) ∧
    (∀ (embed : PyStr → Option (List ℤ)) (st : PipeState) (query : PyStr) (k : Nat),
      (search_similar embed st query k).length ≤ min k st.index.vecs.length ∧
      (search_similar embed st query k).length ≤ min k st.documents.length) ∧
    (∀ (embed : PyStr → Option (List ℤ)) (st : PipeState) (query : PyStr) (k : Nat)
      (qv : List ℤ), st.documents.length ≠ 0 → embed query = some qv →
      search_similar embed st query k =
        ((faissSearch st.index.vecs qv (min k st.documents.length)).map
          (fun p => ((p.1 : Int), p.2))).filterMap
          (mkResult st.documents st.metadata)) := by
  refine ⟨faissSearch_sorted, ?_, ?_, search_similar_eq_faiss⟩
  · intro embed st query k
    unfold search_similar
    by_cases h0 : st.documents.length = 0
    · simp [h0]
    · simp only [h0, if_false]
      cases hemb : embed query with
      | none => exact List.Pairwise.nil
      | some qv =>
        unfold formatAndSort
        exact (pairwise_sortBy resLe_total resLe_trans _).imp
          (fun h => of_decide_eq_true h)
  · intro embed st query k
    unfold search_similar
    by_cases h0 : st.documents.length = 0
    · simp [h0]
    · simp only [h0, if_false]
      cases hemb : embed query with
      | none => simp
      | some qv =>
        unfold formatAndSort
        have hlen : (sortBy resLe
            (((faissSearch st.index.vecs qv (min k st.documents.length)).map
              (fun p => ((p.1 : Int), p.2))).filterMap
              (mkResult st.documents st.metadata))).length ≤
            (faissSearch st.index.vecs qv (min k st.documents.length)).length := by
          rw [length_sortBy]
          calc (((faissSearch st.index.vecs qv (min k st.documents.length)).map
                (fun p => ((p.1 : Int), p.2))).filterMap
                (mkResult st.documents st.metadata)).length
              ≤ ((faissSearch st.index.vecs qv (min k st.documents.length)).map
                (fun p => ((p.1 : Int), p.2))).length := List.length_filterMap_le _ _
            _ = (faissSearch st.index.vecs qv (min k st.documents.length)).length :=
                List.length_map _ _
        have hfl : (faissSearch st.index.vecs qv (min k st.documents.length)).length =
            min (min k st.documents.length) st.index.vecs.length := by
          unfold faissSearch
          rw [List.length_take, length_sortBy, List.enum_length, List.length_map]
        have hgoal : (sortBy resLe
            (((faissSearch st.index.vecs qv (min k st.documents.length)).map
              (fun p => ((p.1 : Int), p.2))).filterMap
              (mkResult st.documents st.metadata))).length ≤
              min k st.index.vecs.length ∧
            (sortBy resLe
            (((faissSearch st.index.vecs qv (min k st.documents.length)).map
              (fun p => ((p.1 : Int), p.2))).filterMap
              (mkResult st.documents st.metadata))).length ≤
              min k st.documents.length := by
          rw [hfl] at hlen
          exact ⟨by omega, by omega⟩
        exact hgoal

/-- Witness for `search_similar_ranking`, reproducing the spec's ranking
example: three stored chunks A, B, C with scores 9, 5, 9 (A inserted before
C) are returned as `[A, C, B]`. -/
theorem search_similar_ranking_witness :
    ((⟨⟨1, [[9], [5], [9]]⟩, [pys "A", pys "B", pys "C"],
        [⟨pys "p", 0, 9⟩, ⟨pys "p", 1, 9⟩, ⟨pys "p", 2, 9⟩]⟩ : PipeState)).documents.length ≠ 0 ∧
    search_similar embedOne
        ⟨⟨1, [[9], [5], [9]]⟩, [pys "A", pys "B", pys "C"],
          [⟨pys "p", 0, 9⟩, ⟨pys "p", 1, 9⟩, ⟨pys "p", 2, 9⟩]⟩ (pys "w") 3 =
      ((faissSearch [[9], [5], [9]] [1] (min 3 3)).map
        (fun p => ((p.1 : Int), p.2))).filterMap
        (mkResult [pys "A", pys "B", pys "C"]
          [⟨pys "p", 0, 9⟩, ⟨pys "p", 1, 9⟩, ⟨pys "p", 2, 9⟩]) ∧
    search_similar embedOne
        ⟨⟨1, [[9], [5], [9]]⟩, [pys "A", pys "B", pys "C"],
          [⟨pys "p", 0, 9⟩, ⟨pys "p", 1, 9⟩, ⟨pys "p", 2, 9⟩]⟩ (pys "w") 3 =
      [⟨pys "A", pys "p", 0, 9⟩, ⟨pys "C", pys "p", 2, 9⟩, ⟨pys "B", pys "p", 1, 5⟩] :=
  ⟨by decide,
    search_similar_ranking.2.2.2 embedOne
      ⟨⟨1, [[9], [5], [9]]⟩, [pys "A", pys "B", pys "C"],
        [⟨pys "p", 0, 9⟩, ⟨pys "p", 1, 9⟩, ⟨pys "p", 2, 9⟩]⟩ (pys "w") 3 [1]
      (by decide) rfl,
    by decide⟩

/-- Claim C5 (as stated) is false at a concrete input: over a non-empty index
(one stored chunk), a search with the empty query string is not
special-cased — the empty string is embedded and searched like any other
query, returning a non-empty result list rather than `[]`. -/
theorem search_similar_empty_query_counterexample :
    search_similar embedOne ⟨⟨1, [[1]]⟩, [pys "content"], [⟨pys "p", 0, 7⟩]⟩
      (pys "") 3 ≠ [] := by
  decide

/-- Claim C5 amended: searching an empty index returns the empty list for
every query and every `k`, and an embedding failure (the only exception
source inside the `try`) is caught and also yields the empty list — never a
raised exception; an empty query string, however, is not special-cased and
is searched like any other query. -/
theorem search_similar_empty_safe (embed : PyStr → Option (List ℤ))
    (st : PipeState) (query : PyStr) (k : Nat) :
    (st.documents = [] → search_similar embed st query k = []) ∧
    (embed query = none → search_similar embed st query k = []) := by
  constructor
  · intro h
    unfold search_similar
    simp [h]
  · intro h
    unfold search_similar
    by_cases h0 : st.documents.length = 0
    · simp [h0]
    · simp [h0, h]

/-- Witness for `search_similar_empty_safe`: the spec's own empty-index
scenario, `search("anything", 3)` on a fresh index returns `[]`. -/
theorem search_similar_empty_safe_witness :
    (⟨⟨embeddingDim, []⟩, [], []⟩ : PipeState).documents = [] ∧
    search_similar embedOne ⟨⟨embeddingDim, []⟩, [], []⟩ (pys "anything") 3 = [] :=
  ⟨rfl, (search_similar_empty_safe embedOne ⟨⟨embeddingDim, []⟩, [], []⟩
    (pys "anything") 3).1 rfl⟩

/-- Every formatted result originates at a single in-range stored position. -/
theorem formatAndSort_positions (raw : List (Int × ℤ)) (docs : List PyStr)
    (meta : List ChunkMeta) (r : SearchResult) (hr : r ∈ formatAndSort raw docs meta) :
    ∃ i, i < docs.length ∧ r.content = docs.getD i [] ∧
      r.source = (meta.getD i dMeta).source ∧
      r.chunk_id = (meta.getD i dMeta).chunk_id := by
  unfold formatAndSort at hr
  obtain ⟨p, _, hmk⟩ := List.mem_filterMap.mp (mem_sortBy.mp hr)
  unfold mkResult at hmk
  split at hmk
  · rename_i h
    cases hmk
    refine ⟨p.1.toNat, ?_, rfl, rfl, rfl⟩
    omega
  · cases hmk

/-- Claim C10: every result returned by `search_similar` is built from a
position `idx` with `0 ≤ idx < len(documents)` — its content and its
metadata fields are read from that same stored position — and any position
outside that range reported by the index search is silently dropped (the
first conjunct holds for an arbitrary reported position list). -/
theorem search_similar_positionally_aligned :
    (∀ (raw : List (Int × ℤ)) (docs : List PyStr) (meta : List ChunkMeta)
      (r : SearchResult), r ∈ formatAndSort raw docs meta →
      ∃ i, i < docs.length ∧ r.content = docs.getD i [] ∧
        r.source = (meta.getD i dMeta).source ∧
        r.chunk_id = (meta.getD i dMeta).chunk_id) ∧
    (∀ (embed : PyStr → Option (List ℤ)) (st : PipeState) (query : PyStr)
      (k : Nat) (r : SearchResult), r ∈ search_similar embed st query k →
      ∃ i, i < st.documents.length ∧ r.content = st.documents.getD i [] ∧
        r.source = (st.metadata.getD i dMeta).source ∧
        r.chunk_id = (st.metadata.getD i dMeta).chunk_id) := by
  refine ⟨formatAndSort_positions, ?_⟩
  intro embed st query k r hr
  unfold search_similar at hr
  by_cases h0 : st.documents.length = 0
  · simp [h0] at hr
  · simp only [h0, if_false] at hr
    cases hemb : embed query with
    | none => rw [hemb] at hr; cases hr
    | some qv =>
      rw [hemb] at hr
      exact formatAndSort_positions _ _ _ r hr

/-- Witness for `search_similar_positionally_aligned`: the single result of a
one-chunk index comes from position 0. -/
theorem search_similar_positionally_aligned_witness :
    (⟨pys "content", pys "p", 0, 1⟩ : SearchResult) ∈
      search_similar embedOne ⟨⟨1, [[1]]⟩, [pys "content"], [⟨pys "p", 0, 7⟩]⟩
        (pys "x") 3 ∧
    ∃ i, i < ([pys "content"] : List PyStr).length ∧
      (⟨pys "content", pys "p", 0, 1⟩ : SearchResult).content =
        ([pys "content"] : List PyStr).getD i [] ∧
      (⟨pys "content", pys "p", 0, 1⟩ : SearchResult).source =
        (([⟨pys "p", 0, 7⟩] : List ChunkMeta).getD i dMeta).source ∧
      (⟨pys "content", pys "p", 0, 1⟩ : SearchResult).chunk_id =
        (([⟨pys "p", 0, 7⟩] : List ChunkMeta).getD i dMeta).chunk_id :=
  ⟨by decide,
    search_similar_positionally_aligned.2 embedOne
      ⟨⟨1, [[1]]⟩, [pys "content"], [⟨pys "p", 0, 7⟩]⟩ (pys "x") 3
      ⟨pys "content", pys "p", 0, 1⟩ (by decide)⟩
